import Mathlib

/- Shallow embedding of src/main.py, the "Self-Improving Coding Agent".
   Python strings are modelled as lists of characters (`PyStr`), Python
   dicts with string keys as ordered association lists (insertion order
   preserved, as in Python 3.7+), and the wall-clock timestamp taken by
   `datetime.now().isoformat()` as an explicit parameter threaded into the
   operations that read the clock. -/

abbrev PyStr := List Char

/-- ASCII whitespace, as recognized by Python `str.split()` / `str.strip()`
(space, tab, line feed, carriage return, vertical tab, form feed).
Python also treats some further Unicode code points as whitespace; the
source snippets and all claims only involve ASCII. -/
def isPySpace (c : Char) : Bool :=
  c == ' ' || c == '\t' || c == '\n' || c == '\r' || c == '\x0b' || c == '\x0c'

/-- Core of splitting a character list at every separator character
(one satisfying `p`): returns the field before the first separator and the
list of remaining fields. -/
def splitOnPCore (p : Char → Bool) : List Char → List Char × List (List Char)
  | [] => ([], [])
  | c :: cs =>
    let r := splitOnPCore p cs
    if p c then ([], r.1 :: r.2) else (c :: r.1, r.2)

/-- Split at every character satisfying `p`, Python style: n separator
occurrences give n+1 fields, and the empty string gives one empty field. -/
def splitOnP (p : Char → Bool) (s : List Char) : List (List Char) :=
  (splitOnPCore p s).1 :: (splitOnPCore p s).2

/-- Python `code.split('\n')`. -/
def pyLines (s : PyStr) : List PyStr :=
  splitOnP (fun c => c == '\n') s

/-- Python `'\n'.join(fields)`, generalized over the separator character. -/
def joinChar (a : Char) : List (List Char) → List Char
  | [] => []
  | [x] => x
  | x :: y :: xs => x ++ a :: joinChar a (y :: xs)

/-- Python `text.split()` with no argument: split on runs of whitespace,
discarding empty fields. -/
def pyWords (s : PyStr) : List PyStr :=
  (splitOnP isPySpace s).filter (fun w => !w.isEmpty)

/-- Python `l.strip()`: remove leading and trailing whitespace. -/
def pyStrip (s : PyStr) : PyStr :=
  ((s.dropWhile isPySpace).reverse.dropWhile isPySpace).reverse

/-- Python `pat in s`: substring test (`pat` occurs contiguously in `s`). -/
def hasSub (pat : PyStr) : PyStr → Bool
  | [] => pat.isEmpty
  | c :: cs => pat.isPrefixOf (c :: cs) || hasSub pat cs

/-- Python dict assignment `m[k] = v` on an ordered association list:
overwrite in place when the key is present, append otherwise. -/
def dictSet (m : List (PyStr × Int)) (k : PyStr) (v : Int) : List (PyStr × Int) :=
  match m with
  | [] => [(k, v)]
  | (k', v') :: rest => if k' = k then (k', v) :: rest else (k', v') :: dictSet rest k v

/-- Association-list lookup for the metrics dict. -/
def lookupMet : List (PyStr × Int) → PyStr → Option Int
  | [], _ => none
  | (k, v) :: rest, t => if k = t then some v else lookupMet rest t

/-- Mutable state of the `CodeAnalyzer` class: the `metrics` dict
(three keys on construction) and the `issues` list. -/
structure CodeAnalyzer where
  metrics : List (PyStr × Int)
  issues : List PyStr
deriving DecidableEq, Repr

/-- Model of `CodeAnalyzer.__init__`: metrics start as
`{"complexity": 0, "efficiency": 0, "readability": 0}`, issues as `[]`. -/
def initCodeAnalyzer : CodeAnalyzer :=
  { metrics := [("complexity".data, 0), ("efficiency".data, 0), ("readability".data, 0)],
    issues := [] }

/-- The complexity count of `CodeAnalyzer.analyze`:
`len([l for l in lines if 'if' in l or 'for' in l])`. -/
def countComplexity (code : PyStr) : Nat :=
  ((pyLines code).filter (fun l => hasSub "if".data l || hasSub "for".data l)).length

/-- The per-line readability test of `CodeAnalyzer.analyze`:
`l.strip() and not l.strip().startswith('#')`. -/
def readableLine (l : PyStr) : Bool :=
  !(pyStrip l).isEmpty && !(("#".data).isPrefixOf (pyStrip l))

/-- The readability count of `CodeAnalyzer.analyze`. -/
def countReadability (code : PyStr) : Nat :=
  ((pyLines code).filter readableLine).length

/-- The two possible value shapes in the dict returned by `analyze`:
the metrics dict under key `"metrics"` and the issues list under
key `"issues"`. -/
inductive AnalysisVal where
  | metricsV (m : List (PyStr × Int))
  | issuesV (l : List PyStr)
deriving DecidableEq, Repr

/-- Model of `CodeAnalyzer.analyze`: writes the freshly computed complexity and
readability counts into `self.metrics` (leaving `efficiency` untouched)
and returns `{"metrics": self.metrics, "issues": self.issues}`. -/
def CodeAnalyzer.analyze (st : CodeAnalyzer) (code : PyStr) :
    CodeAnalyzer × List (PyStr × AnalysisVal) :=
  let m1 := dictSet st.metrics "complexity".data ((countComplexity code : Int))
  let m2 := dictSet m1 "readability".data ((countReadability code : Int))
  ({ st with metrics := m2 },
   [("metrics".data, AnalysisVal.metricsV m2), ("issues".data, AnalysisVal.issuesV st.issues)])

/-- Model of `CodeAnalyzer.suggest_improvements` (its `self` is unused in the
source): three independent substring checks, each appending one fixed
message. -/
def CodeAnalyzer.suggest_improvements (code : PyStr) : List PyStr :=
  (if hasSub "import *".data code
    then ["Replace \x27import *\x27 with specific imports".data] else [])
  ++ (if hasSub "  ".data code then ["Use consistent indentation".data] else [])
  ++ (if hasSub "TODO".data code || hasSub "FIXME".data code
    then ["Address TODO/FIXME comments".data] else [])

/-- One character of the regex class `\w` (ASCII model of Python `re`). -/
def isWordChar (c : Char) : Bool := c.isAlphanum || c == '_'

/-- Match a literal character sequence at the head of the input, returning
the rest on success. -/
def matchLit : List Char → List Char → Option (List Char)
  | [], s => some s
  | _ :: _, [] => none
  | c :: cs, d :: ds => if c == d then matchLit cs ds else none

/-- Match one or more characters satisfying `p` (greedy), returning the
captured run and the rest; regex `p+`. -/
def matchPlus (p : Char → Bool) (s : List Char) : Option (List Char × List Char) :=
  match s.takeWhile p with
  | [] => none
  | c :: cs => some (c :: cs, s.dropWhile p)

/-- Match the regex `for\s+(\w+)\s+in\s+range\(len\((\w+)\)\)` at the head
of `s`, returning the two captures and the rest. Greedy maximal matching of
each repeated class is exact here (no backtracking needed) because each of
`\s` and `\w` is disjoint from the character the pattern requires next. -/
def matchLoopPat (s : List Char) : Option (List Char × List Char × List Char) := do
  let s ← matchLit "for".data s
  let (_, s) ← matchPlus isPySpace s
  let (v, s) ← matchPlus isWordChar s
  let (_, s) ← matchPlus isPySpace s
  let s ← matchLit "in".data s
  let (_, s) ← matchPlus isPySpace s
  let s ← matchLit "range(len(".data s
  let (a, s) ← matchPlus isWordChar s
  let s ← matchLit "))".data s
  pure (v, a, s)

/-- The scan of `re.sub`: at each position try the pattern; on a match emit
the replacement `for \1 in \2` and continue after the matched span,
otherwise emit one character and move on. Every step consumes at least one
input character, so fuel equal to the input length never runs out. -/
def subLoopAux : Nat → List Char → List Char
  | 0, s => s
  | _ + 1, [] => []
  | fuel + 1, c :: cs =>
    match matchLoopPat (c :: cs) with
    | some (v, a, rest) => "for ".data ++ v ++ " in ".data ++ a ++ subLoopAux fuel rest
    | none => c :: subLoopAux fuel cs

/-- Model of `CodeOptimizer.optimize_loops` (a `@staticmethod`):
`re.sub(r'for\s+(\w+)\s+in\s+range\(len\((\w+)\)\)', r'for \1 in \2', code)`. -/
def CodeOptimizer.optimize_loops (code : PyStr) : PyStr :=
  subLoopAux code.length code

/-- The import-line test of `optimize_imports`:
`line.startswith('import ') or line.startswith('from ')`. -/
def isImportLine (l : PyStr) : Bool :=
  ("import ".data).isPrefixOf l || ("from ".data).isPrefixOf l

/-- Model of `CodeOptimizer.optimize_imports` (a `@staticmethod`): split into lines,
collect import lines and the remaining lines in order (the source's single
append loop is this pair of order-preserving filters), sort the import
lines (`list.sort()` on strings is a comparison sort on a linear order, so
any sorting algorithm gives the same result; insertion sort is used here),
and join the sorted imports followed by the other lines. -/
def CodeOptimizer.optimize_imports (code : PyStr) : PyStr :=
  let lines := pyLines code
  let imports := lines.filter isImportLine
  let other_lines := lines.filter (fun l => !isImportLine l)
  joinChar '\n' (List.insertionSort (· ≤ ·) imports ++ other_lines)

/-- One record of `AgentLearner.log_improvement`: timestamp, improvement
type label, and the newline-split line counts of the before/after texts. -/
structure ImprovementRecord where
  timestamp : PyStr
  type : PyStr
  before_lines : Nat
  after_lines : Nat
deriving DecidableEq, Repr

/-- Mutable state of the `AgentLearner` class. -/
structure AgentLearner where
  learned_patterns : List (PyStr × Nat)
  improvement_history : List ImprovementRecord
deriving DecidableEq, Repr

/-- Model of `AgentLearner.__init__`: both containers start empty. -/
def initAgentLearner : AgentLearner :=
  { learned_patterns := [], improvement_history := [] }

/-- Python `patterns[word] = patterns.get(word, 0) + 1` on an ordered
association list: bump in place when present, append `(word, 1)` otherwise. -/
def bumpCount (m : List (PyStr × Nat)) (k : PyStr) : List (PyStr × Nat) :=
  match m with
  | [] => [(k, 1)]
  | (k', v) :: rest => if k' = k then (k', v + 1) :: rest else (k', v) :: bumpCount rest k

/-- Model of `AgentLearner.extract_patterns` (its `self` is unused in the source):
count whitespace-delimited tokens, keep those with count greater than one. -/
def AgentLearner.extract_patterns (code : PyStr) : List (PyStr × Nat) :=
  ((pyWords code).foldl bumpCount []).filter (fun kv => decide (1 < kv.2))

/-- Python `len(s.split('\n'))`. -/
def numLines (s : PyStr) : Nat := (pyLines s).length

/-- Model of `AgentLearner.log_improvement`: append one record; `ts` models the
`datetime.now().isoformat()` timestamp. -/
def AgentLearner.log_improvement (l : AgentLearner) (before after ty ts : PyStr) :
    AgentLearner :=
  { l with improvement_history :=
      l.improvement_history ++
        [{ timestamp := ts, type := ty,
           before_lines := numLines before, after_lines := numLines after }] }

/-- The dict returned by `AgentLearner.get_learning_stats`; the Python
float `avg_reduction` is modelled exactly as a rational. -/
structure LearningStats where
  total_improvements : Nat
  pattern_count : Nat
  avg_reduction : ℚ
deriving DecidableEq, Repr

/-- Model of `AgentLearner._calculate_avg_reduction`: `0.0` on empty history, else
the mean of `before_lines - after_lines` over all records. -/
def AgentLearner.calculate_avg_reduction (l : AgentLearner) : ℚ :=
  if l.improvement_history.isEmpty then 0
  else ((l.improvement_history.map
          (fun h => (h.before_lines : Int) - (h.after_lines : Int))).sum : ℚ)
        / (l.improvement_history.length : ℚ)

/-- Model of `AgentLearner.get_learning_stats`. -/
def AgentLearner.get_learning_stats (l : AgentLearner) : LearningStats :=
  { total_improvements := l.improvement_history.length,
    pattern_count := l.learned_patterns.length,
    avg_reduction := l.calculate_avg_reduction }

/-- Mutable state of the `CodingAgent` class (the optimizer has only
static methods, hence no state). -/
structure CodingAgent where
  analyzer : CodeAnalyzer
  learner : AgentLearner
deriving DecidableEq, Repr

/-- Model of `CodingAgent.__init__`. -/
def initCodingAgent : CodingAgent :=
  { analyzer := initCodeAnalyzer, learner := initAgentLearner }

/-- The dict returned by `CodingAgent.improve_code`. -/
structure Report where
  improved_code : PyStr
  analysis : List (PyStr × AnalysisVal)
  suggestions : List PyStr
  patterns : List (PyStr × Nat)
  learning_stats : LearningStats
deriving DecidableEq, Repr

/-- Model of `CodingAgent.improve_code`: the five-step pipeline, in source order;
`ts` models the wall-clock timestamp taken inside `log_improvement`. -/
def CodingAgent.improve_code (ag : CodingAgent) (ts code : PyStr) :
    CodingAgent × Report :=
  let original_code := code
  let (analyzer', analysis) := ag.analyzer.analyze code
  let suggestions := CodeAnalyzer.suggest_improvements code
  let code := CodeOptimizer.optimize_loops code
  let code := CodeOptimizer.optimize_imports code
  let patterns := AgentLearner.extract_patterns code
  let learner' := ag.learner.log_improvement original_code code "full_improvement".data ts
  ({ analyzer := analyzer', learner := learner' },
   { improved_code := code, analysis := analysis, suggestions := suggestions,
     patterns := patterns, learning_stats := learner'.get_learning_stats })

/-- The dict returned by `CodingAgent.get_performance_report`. -/
structure PerformanceReport where
  name : PyStr
  version : PyStr
  capabilities : List PyStr
  learning_stats : LearningStats
deriving DecidableEq, Repr

/-- Model of `CodingAgent.get_performance_report`. -/
def CodingAgent.get_performance_report (ag : CodingAgent) : PerformanceReport :=
  { name := "Self-Improving Coding Agent".data, version := "0.1.0".data,
    capabilities := ["analyze".data, "optimize".data, "learn".data],
    learning_stats := ag.learner.get_learning_stats }

/-- Run a sequence of `improve_code` calls (each with its timestamp and
input text), returning the final agent state. -/
def runAgent (ag : CodingAgent) : List (PyStr × PyStr) → CodingAgent
  | [] => ag
  | (ts, code) :: rest => runAgent (ag.improve_code ts code).1 rest

/-- Run a sequence of `improve_code` calls, returning the reports in call
order. -/
def runReports (ag : CodingAgent) : List (PyStr × PyStr) → List Report
  | [] => []
  | (ts, code) :: rest =>
    (ag.improve_code ts code).2 :: runReports (ag.improve_code ts code).1 rest

/-- Association-list lookup for pattern tables. -/
def lookupTok : List (PyStr × Nat) → PyStr → Option Nat
  | [], _ => none
  | (k, v) :: rest, t => if k = t then some v else lookupTok rest t

/-- Number of occurrences of a token in a token list. -/
def countTok (t : PyStr) (ws : List PyStr) : Nat :=
  (ws.filter (fun w => decide (w = t))).length

/-- The five-line end-to-end example input of the demonstration driver. -/
def demoCode : PyStr :=
  ("def calc(x,y):\n    if x>0:\n        return x+y\n    else:\n        return x-y").data

/-! Helper lemmas about the agent state reached by sequences of
`improve_code` calls. -/

/-- The operation `improve_code` never writes `learned_patterns`. -/
theorem improve_code_learned_patterns (ag : CodingAgent) (ts code : PyStr) :
    ((ag.improve_code ts code).1).learner.learned_patterns
      = ag.learner.learned_patterns := rfl

/-- No sequence of `improve_code` calls writes `learned_patterns`. -/
theorem runAgent_learned_patterns (inputs : List (PyStr × PyStr)) (ag : CodingAgent) :
    (runAgent ag inputs).learner.learned_patterns = ag.learner.learned_patterns := by
  induction inputs generalizing ag with
  | nil => rfl
  | cons p rest ih =>
    obtain ⟨ts, code⟩ := p
    exact (ih (ag.improve_code ts code).1).trans rfl

/-- Every report produced along a run carries
`pattern_count = len(learned_patterns)` of the starting agent. -/
theorem runReports_pattern_count (inputs : List (PyStr × PyStr)) (ag : CodingAgent) :
    ((runReports ag inputs).all
      (fun r => r.learning_stats.pattern_count
        == ag.learner.learned_patterns.length)) = true := by
  induction inputs generalizing ag with
  | nil => rfl
  | cons p rest ih =>
    obtain ⟨ts, code⟩ := p
    simp only [runReports, List.all_cons, Bool.and_eq_true]
    exact ⟨beq_self_eq_true _, ih (ag.improve_code ts code).1⟩

/-- Claim C1 (corrected), counterexample to the original claim: running the
pipeline on the text `"x x"` leaves one distinct repeated token in the
optimized output (so the extractor's table has size 1), yet the
`pattern_count` in the returned learning stats is 0, not 1. -/
theorem claim_C1_cex :
    (AgentLearner.extract_patterns
        ((initCodingAgent.improve_code [] ("x x").data).2).improved_code).length = 1
    ∧ ((initCodingAgent.improve_code [] ("x x").data).2).learning_stats.pattern_count
        = 0 := by
  constructor <;> decide

/-- Claim C1 (corrected): `stats()` reports `pattern_count` equal to the
size of `learned_patterns`, which no operation of the agent ever writes;
in particular the report of any `improve_code` call on the fresh agent has
`pattern_count = 0`, regardless of the pattern table the extractor
produced during that call. -/
theorem claim_C1 (ag : CodingAgent) (ts code : PyStr) :
    ((ag.improve_code ts code).2).learning_stats.pattern_count
        = ag.learner.learned_patterns.length
    ∧ (ag.learner.get_learning_stats).pattern_count
        = ag.learner.learned_patterns.length
    ∧ ((initCodingAgent.improve_code ts code).2).learning_stats.pattern_count = 0 :=
  ⟨rfl, rfl, rfl⟩

/-- Claim C2 (corrected), counterexample to the original claim: on the
five-line example input the suggestion list is not empty (the four-space
indentation contains a double space, so the consistent-indentation
suggestion fires). -/
theorem claim_C2_cex :
    ¬ ((initCodingAgent.improve_code [] demoCode).2.suggestions = []) := by
  decide

/-- Claim C2 (corrected): on the five-line example input the pipeline
yields complexity 1, readability 5, the single suggestion
"Use consistent indentation", and an `improved_code` identical to the
input, unchanged by both `optimize_loops` and `optimize_imports`. -/
theorem claim_C2 :
    (initCodingAgent.improve_code [] demoCode).2.analysis
      = [("metrics".data, AnalysisVal.metricsV
            [("complexity".data, 1), ("efficiency".data, 0), ("readability".data, 5)]),
         ("issues".data, AnalysisVal.issuesV [])]
    ∧ (initCodingAgent.improve_code [] demoCode).2.suggestions
      = ["Use consistent indentation".data]
    ∧ CodeOptimizer.optimize_loops demoCode = demoCode
    ∧ CodeOptimizer.optimize_imports demoCode = demoCode
    ∧ (initCodingAgent.improve_code [] demoCode).2.improved_code = demoCode := by
  refine ⟨?_, ?_, ?_, ?_, ?_⟩ <;> decide

/-- Claim C3 (corrected), counterexample to the original claim: the
`analysis` entry of a pipeline report is not the metrics mapping — its
keys are `"metrics"` and `"issues"`, and in particular `"complexity"` is
not among them. -/
theorem claim_C3_cex :
    ((initCodingAgent.improve_code [] demoCode).2.analysis).map Prod.fst
      = ["metrics".data, "issues".data]
    ∧ ¬ ("complexity".data
          ∈ ((initCodingAgent.improve_code [] demoCode).2.analysis).map Prod.fst) := by
  constructor <;> decide

/-- Claim C3 (corrected): the `analysis` entry of the report is the
two-key mapping `{"metrics": m, "issues": issues}` where `m` is the
analyzer's metrics mapping with key set
`{complexity, efficiency, readability}`; on the fresh agent, `complexity`
and `readability` are recomputed fresh from the input on that call,
`efficiency` stays 0, and `issues` stays empty. -/
theorem claim_C3 (ts code : PyStr) :
    ((initCodingAgent.improve_code ts code).2.analysis).map Prod.fst
      = ["metrics".data, "issues".data]
    ∧ (initCodingAgent.improve_code ts code).2.analysis
      = [("metrics".data, AnalysisVal.metricsV
            [("complexity".data, (countComplexity code : Int)),
             ("efficiency".data, 0),
             ("readability".data, (countReadability code : Int))]),
         ("issues".data, AnalysisVal.issuesV [])] :=
  ⟨rfl, rfl⟩

/-- Claim C4: the pipeline computes the analysis and the suggestions on
the original text, computes `improved_code` as
`optimize_imports(optimize_loops(T))`, computes the pattern table on that
fully optimized text, and appends exactly one history record built from
the original text and the fully optimized text. -/
theorem claim_C4 (ag : CodingAgent) (ts code : PyStr) :
    ((ag.improve_code ts code).2).analysis = (ag.analyzer.analyze code).2
    ∧ ((ag.improve_code ts code).2).suggestions
        = CodeAnalyzer.suggest_improvements code
    ∧ ((ag.improve_code ts code).2).improved_code
        = CodeOptimizer.optimize_imports (CodeOptimizer.optimize_loops code)
    ∧ ((ag.improve_code ts code).2).patterns
        = AgentLearner.extract_patterns
            (CodeOptimizer.optimize_imports (CodeOptimizer.optimize_loops code))
    ∧ ((ag.improve_code ts code).1).learner.improvement_history
        = ag.learner.improvement_history ++
            [{ timestamp := ts, type := "full_improvement".data,
               before_lines := numLines code,
               after_lines := numLines
                 (CodeOptimizer.optimize_imports (CodeOptimizer.optimize_loops code)) }] :=
  ⟨rfl, rfl, rfl, rfl, rfl⟩

/-- Claim C8: on a learner with empty history, `get_learning_stats`
returns `total_improvements = 0` and `avg_reduction = 0` (the mean is
guarded by the emptiness check, so no division by zero occurs). -/
theorem claim_C8 (l : AgentLearner) (h : l.improvement_history = []) :
    (l.get_learning_stats).total_improvements = 0
    ∧ (l.get_learning_stats).avg_reduction = 0 := by
  constructor
  · simp [AgentLearner.get_learning_stats, h]
  · simp [AgentLearner.get_learning_stats, AgentLearner.calculate_avg_reduction, h]

/-- Claim C8, witness: the freshly constructed learner has empty history
and the conclusion holds for it. -/
theorem claim_C8_witness :
    initAgentLearner.improvement_history = []
    ∧ ((initAgentLearner.get_learning_stats).total_improvements = 0
        ∧ (initAgentLearner.get_learning_stats).avg_reduction = 0) :=
  ⟨rfl, claim_C8 initAgentLearner rfl⟩

/-- Claim C9: starting from the freshly constructed agent, after any
sequence of `improve_code` calls the learner's `learned_patterns` mapping
is still empty, so the `pattern_count` of `get_learning_stats`, of the
`learning_stats` in every report returned along the way, and of
`get_performance_report` is always 0. -/
theorem claim_C9 (inputs : List (PyStr × PyStr)) :
    (runAgent initCodingAgent inputs).learner.learned_patterns = []
    ∧ ((runAgent initCodingAgent inputs).learner.get_learning_stats).pattern_count = 0
    ∧ ((runAgent initCodingAgent inputs).get_performance_report).learning_stats.pattern_count
        = 0
    ∧ ((runReports initCodingAgent inputs).all
        (fun r => r.learning_stats.pattern_count == 0)) = true := by
  have h := runAgent_learned_patterns inputs initCodingAgent
  refine ⟨h.trans rfl, ?_, ?_, ?_⟩
  · show (runAgent initCodingAgent inputs).learner.learned_patterns.length = 0
    rw [h]; rfl
  · show (runAgent initCodingAgent inputs).learner.learned_patterns.length = 0
    rw [h]; rfl
  · exact runReports_pattern_count inputs initCodingAgent

/-! Helper lemmas about splitting and joining on a separator character. -/

/-- Splitting always yields at least one field. -/
theorem splitOnP_ne_nil (p : Char → Bool) (s : List Char) : splitOnP p s ≠ [] := by
  simp [splitOnP]

/-- No character of any field produced by `splitOnPCore` satisfies the
separator predicate. -/
theorem splitOnPCore_chars (p : Char → Bool) (s : List Char) :
    (∀ c ∈ (splitOnPCore p s).1, p c = false)
    ∧ (∀ x ∈ (splitOnPCore p s).2, ∀ c ∈ x, p c = false) := by
  induction s with
  | nil => exact ⟨by simp [splitOnPCore], by simp [splitOnPCore]⟩
  | cons c cs ih =>
    cases hpc : p c with
    | true =>
      refine ⟨?_, ?_⟩
      · intro d hd
        simp [splitOnPCore, hpc] at hd
      · intro x hx
        simp [splitOnPCore, hpc] at hx
        rcases hx with h | hx
        · intro d hd
          exact ih.1 d (h ▸ hd)
        · exact ih.2 x hx
    | false =>
      refine ⟨?_, ?_⟩
      · intro d hd
        simp [splitOnPCore, hpc] at hd
        rcases hd with h | hd
        · rw [h]; exact hpc
        · exact ih.1 d hd
      · intro x hx
        simp [splitOnPCore, hpc] at hx
        exact ih.2 x hx

/-- No character of any field produced by `splitOnP` satisfies the
separator predicate. -/
theorem mem_splitOnP_chars (p : Char → Bool) (s : List Char) :
    ∀ x ∈ splitOnP p s, ∀ c ∈ x, p c = false := by
  intro x hx
  simp only [splitOnP, List.mem_cons] at hx
  rcases hx with rfl | hx
  · exact (splitOnPCore_chars p s).1
  · exact (splitOnPCore_chars p s).2 x hx

/-- Prepending separator-free characters extends the first field. -/
theorem splitOnPCore_append (p : Char → Bool) (x r : List Char)
    (hx : ∀ c ∈ x, p c = false) :
    splitOnPCore p (x ++ r)
      = (x ++ (splitOnPCore p r).1, (splitOnPCore p r).2) := by
  induction x with
  | nil => simp
  | cons c cs ih =>
    have hc : p c = false := hx c (by simp)
    have ih' := ih (fun d hd => hx d (by simp [hd]))
    simp [splitOnPCore, hc, ih']

/-- Splitting is a left inverse of joining when the field list is nonempty
and no field contains a separator character. -/
theorem splitOnP_joinChar (p : Char → Bool) (a : Char) (ha : p a = true) :
    ∀ hs : List (List Char), hs ≠ [] →
      (∀ x ∈ hs, ∀ c ∈ x, p c = false) →
      splitOnP p (joinChar a hs) = hs := by
  intro hs
  induction hs with
  | nil => intro h; exact absurd rfl h
  | cons x xs ih =>
    intro _ hchars
    cases xs with
    | nil =>
      have hx : ∀ c ∈ x, p c = false := hchars x (by simp)
      have hcore : splitOnPCore p (x ++ []) = (x ++ (splitOnPCore p []).1, []) :=
        splitOnPCore_append p x [] hx
      simp only [List.append_nil] at hcore
      simp [joinChar, splitOnP, hcore, splitOnPCore]
    | cons y ys =>
      have hx : ∀ c ∈ x, p c = false := hchars x (by simp)
      have hrest : ∀ z ∈ y :: ys, ∀ c ∈ z, p c = false :=
        fun z hz => hchars z (by simp [hz])
      have ihr := ih (by simp) hrest
      have hjoin : joinChar a (x :: y :: ys) = x ++ a :: joinChar a (y :: ys) := rfl
      rw [hjoin]
      have h1 := splitOnPCore_append p x (a :: joinChar a (y :: ys)) hx
      have h2 : splitOnPCore p (a :: joinChar a (y :: ys))
          = ([], (splitOnPCore p (joinChar a (y :: ys))).1
              :: (splitOnPCore p (joinChar a (y :: ys))).2) := by
        simp [splitOnPCore, ha]
      show (splitOnPCore p (x ++ a :: joinChar a (y :: ys))).1
          :: (splitOnPCore p (x ++ a :: joinChar a (y :: ys))).2 = x :: y :: ys
      rw [h1, h2]
      simp only [List.append_nil]
      exact congrArg (List.cons x) ihr

/-- The newline-split lines of `optimize_imports code` are exactly the
sorted import lines followed by the remaining lines, in order. -/
theorem pyLines_optimize_imports (code : PyStr) :
    pyLines (CodeOptimizer.optimize_imports code)
      = List.insertionSort (· ≤ ·) ((pyLines code).filter isImportLine)
        ++ (pyLines code).filter (fun l => !isImportLine l) := by
  have hperm : List.Perm
      (List.insertionSort (· ≤ ·) ((pyLines code).filter isImportLine)
        ++ (pyLines code).filter (fun l => !isImportLine l)) (pyLines code) :=
    ((List.perm_insertionSort _ _).append_right _).trans
      (List.filter_append_perm _ _)
  have hne : List.insertionSort (· ≤ ·) ((pyLines code).filter isImportLine)
      ++ (pyLines code).filter (fun l => !isImportLine l) ≠ [] := by
    intro h
    apply splitOnP_ne_nil (fun c => c == '\n') code
    have := hperm.length_eq
    rw [h] at this
    exact (List.length_eq_zero.mp this.symm)
  have hchars : ∀ x ∈ List.insertionSort (· ≤ ·) ((pyLines code).filter isImportLine)
      ++ (pyLines code).filter (fun l => !isImportLine l),
      ∀ c ∈ x, (c == '\n') = false := by
    intro x hx
    exact mem_splitOnP_chars _ code x (hperm.mem_iff.mp hx)
  exact splitOnP_joinChar (fun c => c == '\n') '\n' rfl _ hne hchars

/-- Claim C10: `optimize_imports` only reorders whole lines — the
newline-split lines of its output are a permutation of those of its input,
so in particular the line count is unchanged. -/
theorem claim_C10 (code : PyStr) :
    List.Perm (pyLines (CodeOptimizer.optimize_imports code)) (pyLines code)
    ∧ (pyLines (CodeOptimizer.optimize_imports code)).length
        = (pyLines code).length := by
  have hperm : List.Perm (pyLines (CodeOptimizer.optimize_imports code)) (pyLines code) := by
    rw [pyLines_optimize_imports]
    exact ((List.perm_insertionSort _ _).append_right _).trans
      (List.filter_append_perm _ _)
  exact ⟨hperm, hperm.length_eq⟩

/-- Claim C6: `optimize_imports` is idempotent. -/
theorem claim_C6 (code : PyStr) :
    CodeOptimizer.optimize_imports (CodeOptimizer.optimize_imports code)
      = CodeOptimizer.optimize_imports code := by
  have hlines := pyLines_optimize_imports code
  have hS : ∀ x ∈ List.insertionSort (· ≤ ·) ((pyLines code).filter isImportLine),
      isImportLine x = true := by
    intro x hx
    exact (List.mem_filter.mp ((List.perm_insertionSort _ _).mem_iff.mp hx)).2
  have hO : ∀ x ∈ (pyLines code).filter (fun l => !isImportLine l),
      isImportLine x = false := by
    intro x hx
    have := (List.mem_filter.mp hx).2
    simpa using this
  have hfS : (List.insertionSort (· ≤ ·) ((pyLines code).filter isImportLine)).filter
        isImportLine
      = List.insertionSort (· ≤ ·) ((pyLines code).filter isImportLine) :=
    List.filter_eq_self.mpr hS
  have hfO : ((pyLines code).filter (fun l => !isImportLine l)).filter isImportLine
      = [] :=
    List.filter_eq_nil_iff.mpr (fun a ha => by simp [hO a ha])
  have hgS : (List.insertionSort (· ≤ ·) ((pyLines code).filter isImportLine)).filter
        (fun l => !isImportLine l)
      = [] :=
    List.filter_eq_nil_iff.mpr (fun a ha => by simp [hS a ha])
  have hgO : ((pyLines code).filter (fun l => !isImportLine l)).filter
        (fun l => !isImportLine l)
      = (pyLines code).filter (fun l => !isImportLine l) :=
    List.filter_eq_self.mpr (fun a ha => by simp [hO a ha])
  have h1 : (pyLines (CodeOptimizer.optimize_imports code)).filter isImportLine
      = List.insertionSort (· ≤ ·) ((pyLines code).filter isImportLine) := by
    rw [hlines, List.filter_append, hfS, hfO, List.append_nil]
  have h2 : (pyLines (CodeOptimizer.optimize_imports code)).filter
        (fun l => !isImportLine l)
      = (pyLines code).filter (fun l => !isImportLine l) := by
    rw [hlines, List.filter_append, hgS, hgO, List.nil_append]
  show joinChar '\n'
      (List.insertionSort (· ≤ ·)
          ((pyLines (CodeOptimizer.optimize_imports code)).filter isImportLine)
        ++ (pyLines (CodeOptimizer.optimize_imports code)).filter
            (fun l => !isImportLine l))
    = CodeOptimizer.optimize_imports code
  rw [h1, h2, (List.sorted_insertionSort _ _).insertionSort_eq]
  rfl

/-! Helper lemmas for the readability claim. -/

/-- A filter keeps the full length exactly when every element passes. -/
theorem filter_length_eq_iff {α : Type} (p : α → Bool) (l : List α) :
    (l.filter p).length = l.length ↔ ∀ a ∈ l, p a = true := by
  constructor
  · intro h
    exact List.filter_eq_self.mp ((List.filter_sublist l).eq_of_length h)
  · intro h
    rw [List.filter_eq_self.mpr h]

/-- Looking up the key just written by `dictSet` yields the written value. -/
theorem lookupMet_dictSet (m : List (PyStr × Int)) (k : PyStr) (v : Int) :
    lookupMet (dictSet m k v) k = some v := by
  induction m with
  | nil => simp [dictSet, lookupMet]
  | cons kv rest ih =>
    obtain ⟨k', v'⟩ := kv
    by_cases h : k' = k
    · simp [dictSet, lookupMet, h]
    · simp [dictSet, lookupMet, h, ih]

/-- The per-line readability test, characterized: the stripped line is
nonempty and does not start with the comment marker. -/
theorem readableLine_iff (l : PyStr) :
    readableLine l = true ↔ pyStrip l ≠ [] ∧ ¬ List.IsPrefix "#".data (pyStrip l) := by
  simp [readableLine, List.isPrefixOf_iff_prefix, List.isEmpty_iff]
  intro _
  rw [← List.isPrefixOf_iff_prefix, Bool.not_eq_true]

/-- Claim C7: after any `analyze` call the stored readability metric is
the readability count of the input, and that count is at most the number
of newline-split lines, with equality exactly when no line is blank after
stripping and no stripped line starts with the comment marker. -/
theorem claim_C7 (st : CodeAnalyzer) (code : PyStr) :
    lookupMet ((st.analyze code).1).metrics "readability".data
      = some ((countReadability code : Int))
    ∧ countReadability code ≤ (pyLines code).length
    ∧ (countReadability code = (pyLines code).length ↔
        ∀ l ∈ pyLines code,
          pyStrip l ≠ [] ∧ ¬ List.IsPrefix "#".data (pyStrip l)) := by
  refine ⟨?_, ?_, ?_⟩
  · exact lookupMet_dictSet _ _ _
  · exact List.length_filter_le _ _
  · rw [show countReadability code
        = ((pyLines code).filter readableLine).length from rfl]
    rw [filter_length_eq_iff]
    simp only [readableLine_iff]

/-! Helper lemmas for the pattern-extraction claim: the association list
built by folding `bumpCount` over the token list holds exactly the token
counts. -/

/-- Token count of a cons. -/
theorem countTok_cons (t w : PyStr) (ws : List PyStr) :
    countTok t (w :: ws) = if w = t then countTok t ws + 1 else countTok t ws := by
  by_cases h : w = t <;> simp [countTok, List.filter_cons, h]

/-- Lookup misses exactly the keys that are absent. -/
theorem lookupTok_eq_none_iff (m : List (PyStr × Nat)) (t : PyStr) :
    lookupTok m t = none ↔ t ∉ m.map Prod.fst := by
  induction m with
  | nil => simp [lookupTok]
  | cons kv rest ih =>
    obtain ⟨k, v⟩ := kv
    simp only [List.map_cons, List.mem_cons, lookupTok]
    by_cases h : k = t
    · subst h
      simp
    · rw [if_neg h, ih]
      constructor
      · intro hn hc
        rcases hc with hc | hc
        · exact h hc.symm
        · exact hn hc
      · exact fun hn hc => hn (Or.inr hc)

/-- Bumping a key makes its looked-up count one larger (with absent keys
counting as zero). -/
theorem lookupTok_bumpCount_same (m : List (PyStr × Nat)) (k : PyStr) :
    lookupTok (bumpCount m k) k = some ((lookupTok m k).getD 0 + 1) := by
  induction m with
  | nil => simp [bumpCount, lookupTok]
  | cons kv rest ih =>
    obtain ⟨k', v⟩ := kv
    by_cases h : k' = k
    · subst h
      simp [bumpCount, lookupTok]
    · simp [bumpCount, lookupTok, h, ih]

/-- Bumping one key leaves lookups of other keys unchanged. -/
theorem lookupTok_bumpCount_other (m : List (PyStr × Nat)) (w t : PyStr)
    (h : ¬ w = t) :
    lookupTok (bumpCount m w) t = lookupTok m t := by
  induction m with
  | nil => simp [bumpCount, lookupTok, h]
  | cons kv rest ih =>
    obtain ⟨k', v⟩ := kv
    by_cases hk : k' = w
    · have hb : bumpCount ((k', v) :: rest) w = (k', v + 1) :: rest := by
        simp [bumpCount, hk]
      have hkt : ¬ k' = t := fun hc => h (hk.symm.trans hc)
      simp [hb, lookupTok, hkt]
    · have hb : bumpCount ((k', v) :: rest) w = (k', v) :: bumpCount rest w := by
        simp [bumpCount, hk]
      by_cases ht : k' = t
      · rw [hb]
        simp [lookupTok, ht]
      · rw [hb]
        simp [lookupTok, ht, ih]

/-- Folding the counter adds the token count to every looked-up value. -/
theorem lookupTok_foldl_getD (ws : List PyStr) :
    ∀ (m : List (PyStr × Nat)) (t : PyStr),
      (lookupTok (ws.foldl bumpCount m) t).getD 0
        = (lookupTok m t).getD 0 + countTok t ws := by
  induction ws with
  | nil =>
    intro m t
    simp [countTok]
  | cons w ws ih =>
    intro m t
    rw [List.foldl_cons, ih (bumpCount m w) t, countTok_cons]
    by_cases h : w = t
    · subst h
      rw [lookupTok_bumpCount_same, if_pos rfl, Option.getD_some]
      omega
    · rw [lookupTok_bumpCount_other m w t h]
      simp [h]

/-- Folding the counter misses a key exactly when it was absent before and
the token does not occur. -/
theorem lookupTok_foldl_none (ws : List PyStr) :
    ∀ (m : List (PyStr × Nat)) (t : PyStr),
      (lookupTok (ws.foldl bumpCount m) t = none
        ↔ lookupTok m t = none ∧ countTok t ws = 0) := by
  induction ws with
  | nil =>
    intro m t
    simp [countTok]
  | cons w ws ih =>
    intro m t
    rw [List.foldl_cons, ih (bumpCount m w) t, countTok_cons]
    by_cases h : w = t
    · subst h
      rw [lookupTok_bumpCount_same]
      simp
    · rw [lookupTok_bumpCount_other m w t h]
      simp [h]

/-- The keys after a bump are the old keys plus the bumped key. -/
theorem mem_keys_bumpCount (m : List (PyStr × Nat)) (w t : PyStr) :
    t ∈ (bumpCount m w).map Prod.fst ↔ t ∈ m.map Prod.fst ∨ t = w := by
  induction m with
  | nil => simp [bumpCount]
  | cons kv rest ih =>
    obtain ⟨k, v⟩ := kv
    by_cases h : k = w
    · subst h
      simp [bumpCount]
      tauto
    · simp [bumpCount, h, ih]
      tauto

/-- Bumping preserves key distinctness. -/
theorem nodup_keys_bumpCount (m : List (PyStr × Nat)) (w : PyStr)
    (h : (m.map Prod.fst).Nodup) : ((bumpCount m w).map Prod.fst).Nodup := by
  induction m with
  | nil => simp [bumpCount]
  | cons kv rest ih =>
    obtain ⟨k, v⟩ := kv
    simp only [List.map_cons, List.nodup_cons] at h
    by_cases hk : k = w
    · have hb : bumpCount ((k, v) :: rest) w = (k, v + 1) :: rest := by
        simp [bumpCount, hk]
      rw [hb]
      simp only [List.map_cons, List.nodup_cons]
      exact ⟨h.1, h.2⟩
    · have hb : bumpCount ((k, v) :: rest) w = (k, v) :: bumpCount rest w := by
        simp [bumpCount, hk]
      rw [hb]
      simp only [List.map_cons, List.nodup_cons]
      refine ⟨?_, ih h.2⟩
      rw [mem_keys_bumpCount]
      intro hc
      exact hc.elim h.1 hk

/-- Folding the counter preserves key distinctness. -/
theorem nodup_keys_foldl (ws : List PyStr) :
    ∀ m : List (PyStr × Nat), (m.map Prod.fst).Nodup
      → ((ws.foldl bumpCount m).map Prod.fst).Nodup := by
  induction ws with
  | nil =>
    intro m h
    simpa using h
  | cons w ws ih =>
    intro m h
    exact ih _ (nodup_keys_bumpCount m w h)

/-- Filtering cannot make an absent key present. -/
theorem lookupTok_filter_none (p : PyStr × Nat → Bool) (m : List (PyStr × Nat))
    (t : PyStr) (h : lookupTok m t = none) :
    lookupTok (m.filter p) t = none := by
  rw [lookupTok_eq_none_iff] at h ⊢
  intro hmem
  exact h (((List.filter_sublist m).map Prod.fst).subset hmem)

/-- On an association list with distinct keys, filtering commutes with
lookup. -/
theorem lookupTok_filter_some (p : PyStr × Nat → Bool) (m : List (PyStr × Nat))
    (t : PyStr) (v : Nat) (hnd : (m.map Prod.fst).Nodup)
    (h : lookupTok m t = some v) :
    lookupTok (m.filter p) t = if p (t, v) then some v else none := by
  induction m with
  | nil => simp [lookupTok] at h
  | cons kv rest ih =>
    obtain ⟨k, v'⟩ := kv
    simp only [List.map_cons, List.nodup_cons] at hnd
    by_cases hk : k = t
    · subst hk
      have hl : lookupTok ((k, v') :: rest) k = some v' := by simp [lookupTok]
      rw [hl] at h
      obtain rfl : v' = v := Option.some.inj h
      have hnone : lookupTok rest k = none :=
        (lookupTok_eq_none_iff rest k).mpr hnd.1
      cases hp : p (k, v') with
      | false =>
        have hf : List.filter p ((k, v') :: rest) = List.filter p rest := by
          simp [List.filter_cons, hp]
        rw [hf, lookupTok_filter_none p rest k hnone, if_neg (by simp [hp])]
      | true =>
        have hf : List.filter p ((k, v') :: rest) = (k, v') :: List.filter p rest := by
          simp [List.filter_cons, hp]
        rw [hf, if_pos (by simp [hp])]
        simp [lookupTok]
    · have hl : lookupTok ((k, v') :: rest) t = lookupTok rest t := by
        simp [lookupTok, hk]
      rw [hl] at h
      have htail := ih hnd.2 h
      cases hp : p (k, v') with
      | false =>
        have hf : List.filter p ((k, v') :: rest) = List.filter p rest := by
          simp [List.filter_cons, hp]
        rw [hf, htail]
      | true =>
        have hf : List.filter p ((k, v') :: rest) = (k, v') :: List.filter p rest := by
          simp [List.filter_cons, hp]
        rw [hf]
        simp [lookupTok, hk, htail]

/-- The table built from an empty map holds exactly the positive token
counts. -/
theorem lookupTok_base (ws : List PyStr) (t : PyStr) :
    lookupTok (ws.foldl bumpCount []) t
      = if countTok t ws = 0 then none else some (countTok t ws) := by
  by_cases h0 : countTok t ws = 0
  · rw [if_pos h0]
    exact (lookupTok_foldl_none ws [] t).mpr ⟨rfl, h0⟩
  · rw [if_neg h0]
    cases hl : lookupTok (ws.foldl bumpCount []) t with
    | none => exact absurd ((lookupTok_foldl_none ws [] t).mp hl).2 h0
    | some v =>
      have hg := lookupTok_foldl_getD ws [] t
      rw [hl] at hg
      simp only [Option.getD_some, lookupTok, Option.getD_none, Nat.zero_add] at hg
      rw [hg]

/-- Claim C5: for every text, the extracted pattern table maps a token to
`c` exactly when the token occurs `c ≥ 2` times among the
whitespace-delimited tokens of the text; tokens occurring at most once are
absent, the table keys are distinct, and the empty text yields the empty
table. -/
theorem claim_C5 (code t : PyStr) :
    lookupTok (AgentLearner.extract_patterns code) t
      = (if 2 ≤ countTok t (pyWords code) then some (countTok t (pyWords code)) else none)
    ∧ ((AgentLearner.extract_patterns code).map Prod.fst).Nodup
    ∧ AgentLearner.extract_patterns [] = [] := by
  have hext : AgentLearner.extract_patterns code
      = ((pyWords code).foldl bumpCount []).filter (fun kv => decide (1 < kv.2)) := rfl
  have hnd : (((pyWords code).foldl bumpCount []).map Prod.fst).Nodup :=
    nodup_keys_foldl (pyWords code) [] (by simp)
  refine ⟨?_, ?_, rfl⟩
  · by_cases h0 : countTok t (pyWords code) = 0
    · have hnone : lookupTok ((pyWords code).foldl bumpCount []) t = none := by
        rw [lookupTok_base, if_pos h0]
      rw [hext, lookupTok_filter_none _ _ _ hnone, if_neg (by omega)]
    · have hsome : lookupTok ((pyWords code).foldl bumpCount []) t
          = some (countTok t (pyWords code)) := by
        rw [lookupTok_base, if_neg h0]
      rw [hext, lookupTok_filter_some (fun kv => decide (1 < kv.2)) _ t _ hnd hsome]
      rcases Nat.lt_or_ge (countTok t (pyWords code)) 2 with hlt | hge
      · have h1 : ¬ 1 < countTok t (pyWords code) := by omega
        have h2 : ¬ 2 ≤ countTok t (pyWords code) := by omega
        simp [h1, h2]
      · have h1 : 1 < countTok t (pyWords code) := by omega
        simp [h1, hge]
  · rw [hext]
    exact ((List.filter_sublist _).map Prod.fst).nodup hnd
